import Mathlib

/-!
Verification of the element/namespace object model and the compilation
pipeline of a TypeScript UI-to-JSON compiler (builder API in
`src/builders/element.ts` and `src/builders/namespace.ts`, compiler in the
compiler module).  The TypeScript source is shallowly embedded: JavaScript
objects and `Map`s become insertion-ordered association lists with
JavaScript assignment semantics (an existing key keeps its position and gets
the new value; a new key is appended), and the mutable array aliasing of the
element builder's property bag is made explicit with a small heap of arrays.
-/

/-- JSON-representable value: an opaque primitive (string, number, boolean
rendered as its literal text), an object (insertion-ordered fields), or an
array. -/
inductive JVal where
  | prim (s : String)
  | obj (fields : List (String × JVal))
  | arr (items : List JVal)

/-- Lookup in an insertion-ordered association list (JavaScript object /
`Map.get`): the value of the first entry with the given key. -/
def alookup {α : Type} : List (String × α) → String → Option α
  | [], _ => none
  | (k, v) :: rest, key => if k = key then some v else alookup rest key

/-- Key-presence test (JavaScript `key in obj` / `Map.has`). -/
def hasKey {α : Type} (l : List (String × α)) (k : String) : Bool :=
  (alookup l k).isSome

/-- Update applied to each entry when assigning to an existing key: the
entry with the assigned key receives the new value in place. -/
def setEntry {α : Type} (k : String) (v : α) (p : String × α) : String × α :=
  if p.1 = k then (k, v) else p

/-- JavaScript assignment `obj[k] = v` / `Map.set(k, v)`: an existing key
keeps its position and receives the new value; a new key is appended. -/
def mapSet {α : Type} (l : List (String × α)) (k : String) (v : α) : List (String × α) :=
  if hasKey l k then l.map (setEntry k v) else l ++ [(k, v)]

/-- Sequence of JavaScript assignments `result[k] = v` applied left to
right, starting from `acc`. -/
def applyEntries (acc : List (String × JVal)) (ws : List (String × JVal)) :
    List (String × JVal) :=
  ws.foldl (fun a kv => mapSet a kv.1 kv.2) acc

/-- Lookup of the LAST entry with the given key (the value a sequence of
assignments leaves behind). -/
def alookupLast {α : Type} (l : List (String × α)) (k : String) : Option α :=
  alookup l.reverse k

/-- First occurrences of the keys in `ks` that are not already in `seen`,
in order: the keys a sequence of JavaScript assignments appends to an
object whose current keys are `seen`. -/
def newKeys (seen : List String) : List String → List String
  | [] => []
  | k :: ks => if k ∈ seen then newKeys seen ks else k :: newKeys (seen ++ [k]) ks

/-- Element builder (`ElementBuilder` in `src/builders/element.ts`): name,
optional extension reference (`@` syntax), the public `type` field, and the
property bag.  The constructor seeds the bag with `{ type }` when a type is
given. -/
structure ElementBuilder where
  elementName : String
  extendsRef : Option String
  type : Option String
  props : List (String × JVal)

/-- Constructor `new ElementBuilder(name, type?)`. -/
def ElementBuilder.create (name : String) (type : Option String) : ElementBuilder :=
  { elementName := name
    extendsRef := none
    type := type
    props :=
      match type with
      | some t => [("type", JVal.prim t)]
      | none => [] }

/-- Method `extends(reference, shouldClearType = true)`: records the
extension reference; when `shouldClearType`, deletes the `type` property and
clears the public `type` field (the type is inherited from the base). -/
def ElementBuilder.extendsBase (b : ElementBuilder) (reference : String)
    (shouldClearType : Bool) : ElementBuilder :=
  if shouldClearType then
    { b with
      extendsRef := some reference
      props := b.props.filter (fun p => !(p.1 = "type" : Bool))
      type := none }
  else { b with extendsRef := some reference }

/-- Method `getName()`: the element's base name. -/
def ElementBuilder.getName (b : ElementBuilder) : String := b.elementName

/-- Method `getFullName()`: `name@extendsRef` when extending, else `name`. -/
def ElementBuilder.getFullName (b : ElementBuilder) : String :=
  match b.extendsRef with
  | some r => b.elementName ++ "@" ++ r
  | none => b.elementName

/-- Method `build()`: a shallow copy of the property bag (the pure value;
the aliasing behaviour of the shallow copy is modelled separately by
`BuilderState`). -/
def ElementBuilder.build (b : ElementBuilder) : List (String × JVal) := b.props

/-- Registration token (`NamespaceElement`): a builder together with the
name of the namespace it was registered in. -/
structure NamespaceElement where
  builder : ElementBuilder
  namespaceName : String

/-- Method `NamespaceElement.getName()`. -/
def NamespaceElement.getName (el : NamespaceElement) : String :=
  el.builder.getName

/-- Method `NamespaceElement.getFullName()`. -/
def NamespaceElement.getFullName (el : NamespaceElement) : String :=
  el.builder.getFullName

/-- Method `NamespaceElement.getQualifiedName()`:
`namespaceName.elementName`. -/
def NamespaceElement.getQualifiedName (el : NamespaceElement) : String :=
  el.namespaceName ++ "." ++ el.builder.getName

/-- Method `extendsFrom(element)` (same-namespace variant): delegates to
`extends(element.getName(), element.builder.type !== undefined)`. -/
def ElementBuilder.extendsFrom (b : ElementBuilder) (el : NamespaceElement) : ElementBuilder :=
  b.extendsBase el.getName el.builder.type.isSome

/-- Method `extendsExternallyFrom(element)` (cross-namespace variant):
delegates to `extends(element.getQualifiedName(), element.builder.type !==
undefined)`. -/
def ElementBuilder.extendsExternallyFrom (b : ElementBuilder) (el : NamespaceElement) :
    ElementBuilder :=
  b.extendsBase el.getQualifiedName el.builder.type.isSome

/-- Animation builder as used by `NamespaceBuilder.addAnimation` (only
`getName()` and `build()` are called on it; `src/builders/animation.ts`
itself is not part of the embedded core, so the builder is represented by
the name/property-bag pair those two methods return). -/
structure AnimationBuilder where
  animationName : String
  animationProps : List (String × JVal)

/-- Method `AnimationBuilder.getName()`. -/
def AnimationBuilder.getName (a : AnimationBuilder) : String := a.animationName

/-- Method `AnimationBuilder.build()`. -/
def AnimationBuilder.buildAnim (a : AnimationBuilder) : JVal := JVal.obj a.animationProps

/-- Namespace builder (`NamespaceBuilder` in `src/builders/namespace.ts`):
the namespace name and its four insertion-ordered maps (`builders`,
`rawElements`, `animations`, `nsVariables`). -/
structure NamespaceBuilder where
  namespaceName : String
  builders : List (String × ElementBuilder)
  rawElements : List (String × JVal)
  animations : List (String × JVal)
  nsVariables : List (String × JVal)

/-- Constructor `new NamespaceBuilder(namespace)` (no options, as created by
the `namespace(name)` factory). -/
def NamespaceBuilder.create (name : String) : NamespaceBuilder :=
  { namespaceName := name
    builders := []
    rawElements := []
    animations := []
    nsVariables := [] }

/-- Method `getName()`. -/
def NamespaceBuilder.getName (ns : NamespaceBuilder) : String := ns.namespaceName

/-- Method `_addInternal(builder)`: stores the builder keyed by its full
name at the moment of registration. -/
def NamespaceBuilder.addInternal (ns : NamespaceBuilder) (b : ElementBuilder) :
    NamespaceBuilder :=
  { ns with builders := mapSet ns.builders b.getFullName b }

/-- Method `ElementBuilder.addToNamespace(ns)`: registers the builder and
returns the updated namespace together with the registration token. -/
def ElementBuilder.addToNamespace (b : ElementBuilder) (ns : NamespaceBuilder) :
    NamespaceBuilder × NamespaceElement :=
  (ns.addInternal b, { builder := b, namespaceName := ns.getName })

/-- Method `addRaw(name, element)`. -/
def NamespaceBuilder.addRaw (ns : NamespaceBuilder) (name : String) (element : JVal) :
    NamespaceBuilder :=
  { ns with rawElements := mapSet ns.rawElements name element }

/-- Method `modify(elementPath, modifications)`: same storage as `addRaw`. -/
def NamespaceBuilder.modify (ns : NamespaceBuilder) (elementPath : String)
    (modifications : JVal) : NamespaceBuilder :=
  { ns with rawElements := mapSet ns.rawElements elementPath modifications }

/-- Key produced by `addVariable(name, v)`: the `$` marker is stripped if
present and re-added together with the `|default` suffix. -/
def NamespaceBuilder.variableKey (name : String) : String :=
  let varName : String :=
    match name.data with
    | '$' :: rest => String.mk rest
    | _ => name
  "$" ++ varName ++ "|default"

/-- Method `addVariable(name, defaultValue)`. -/
def NamespaceBuilder.addVariable (ns : NamespaceBuilder) (name : String)
    (defaultValue : JVal) : NamespaceBuilder :=
  { ns with nsVariables := mapSet ns.nsVariables (NamespaceBuilder.variableKey name) defaultValue }

/-- Method `addAnimation(anim)`: stores `anim.build()` keyed by
`anim.getName()`. -/
def NamespaceBuilder.addAnimation (ns : NamespaceBuilder) (a : AnimationBuilder) :
    NamespaceBuilder :=
  { ns with animations := mapSet ns.animations a.getName a.buildAnim }

/-- Entries the `build()` loop over `this.builders` assigns:
`result[fullName] = builder.build()`. -/
def NamespaceBuilder.builtEntries (ns : NamespaceBuilder) : List (String × JVal) :=
  ns.builders.map (fun kb => (kb.1, JVal.obj kb.2.build))

/-- Method `NamespaceBuilder.build()`: starts from `{ namespace: name }`
and assigns, in order, all nsVariables, all animations, all built elements,
and all raw elements. -/
def NamespaceBuilder.build (ns : NamespaceBuilder) : List (String × JVal) :=
  applyEntries [("namespace", JVal.prim ns.namespaceName)]
    (ns.nsVariables ++ ns.animations ++ ns.builtEntries ++ ns.rawElements)

/-- Property value as stored in the live mutable bag: either a scalar (a
value copied by assignment) or a reference to a mutable array on the heap
(the representation of list-valued properties such as `controls`, whose
array object is shared by reference). -/
inductive PropVal where
  | scalar (v : JVal)
  | listRef (r : Nat)

/-- Mutable state of one element builder: the property bag plus the heap of
array objects the bag's list-valued properties point into.  `build()`
returns a shallow copy (`{ ...this.properties }`), so a snapshot is the
`props` association list, still pointing at the same heap cells. -/
structure BuilderState where
  props : List (String × PropVal)
  heap : List (List JVal)

/-- Assignment mutators (`prop`, `props`, `rawProp`, `setProp` and every
single-value setter): `this.properties[key] = value`. -/
def BuilderState.setProp (s : BuilderState) (key : String) (value : JVal) : BuilderState :=
  { s with props := mapSet s.props key (PropVal.scalar value) }

/-- Method `controls(...children)`: `if (!this.properties.controls)
this.properties.controls = []` followed by pushes into that array.  When a
`controls` array already exists the children are pushed into the existing
(shared) heap cell; otherwise a fresh array is allocated.  (`bindings` and
`anims` mutate their arrays the same way.) -/
def BuilderState.controlsCall (s : BuilderState) (children : List JVal) : BuilderState :=
  match alookup s.props "controls" with
  | some (PropVal.listRef r) =>
      { s with heap := s.heap.set r (s.heap.getD r [] ++ children) }
  | _ =>
      { props := mapSet s.props "controls" (PropVal.listRef s.heap.length)
        heap := s.heap ++ [children] }

/-- Value an observer reads through a property entry: scalars directly,
array references through the heap. -/
def derefProp (heap : List (List JVal)) : PropVal → JVal
  | PropVal.scalar v => v
  | PropVal.listRef r => JVal.arr (heap.getD r [])

/-- Contents of a snapshot (a `build()` result) as observed against a heap:
what `JSON.stringify` of the snapshot would serialize. -/
def observeAll (heap : List (List JVal)) (snapshot : List (String × PropVal)) :
    List (String × JVal) :=
  snapshot.map (fun p => (p.1, derefProp heap p.2))

/-- Substring test on character lists (JavaScript `String.includes`). -/
def hasSubList (pat : List Char) : List Char → Bool
  | [] => pat.isEmpty
  | c :: rest => List.isPrefixOf pat (c :: rest) || hasSubList pat rest

/-- JavaScript `s.includes(pat)`. -/
def containsSub (s pat : String) : Bool := hasSubList pat.data s.data

/-- JavaScript `p.replace(/\\/g, "/")`: every backslash becomes a forward
slash. -/
def normalizeSlashes (p : String) : String :=
  String.mk (p.data.map (fun c => if c = '\\' then '/' else c))

/-- Node `path.join(a, b)` for the already-normalized relative paths the
compiler builds (no trailing separators, no `..` segments). -/
def joinPath (a b : String) : String := a ++ "/" ++ b

/-- Character-list test for a name beginning with the `_` exclusion
marker. -/
def startsWithUnderscore (l : List Char) : Bool :=
  match l with
  | '_' :: _ => true
  | _ => false

/-- Character-list test for the `.ts` extension. -/
def endsWithTsList (l : List Char) : Bool := List.isPrefixOf ['s', 't', '.'] l.reverse

/-- Default `sourcePattern` regular expression of the compiler
configuration: any `.ts` file whose name does not start with `_`. -/
def defaultSourcePattern (name : String) : Bool :=
  !(startsWithUnderscore name.data) && endsWithTsList name.data

/-- Node `path.basename(p)`: the part after the last slash. -/
def pathBasename (p : String) : String :=
  String.mk ((p.data.reverse.takeWhile (fun c => !(c = '/' : Bool))).reverse)

/-- Node `path.basename(p, ".ts")`: the basename with a trailing `.ts`
removed when present. -/
def basenameStripTs (p : String) : String :=
  let b := (pathBasename p).data
  if endsWithTsList b then String.mk (b.take (b.length - 3)) else String.mk b

/-- Compiler configuration (`CompilerConfig` in the compiler types
module). -/
structure CompilerConfig where
  sourceDir : String
  outputDir : String
  uiDefsPath : String
  globalVariablesPath : Option String
  prettyPrint : Bool
  sourcePattern : String → Bool
  clean : Bool
  uiDefsPrefix : String

/-- Default compiler configuration (`DEFAULT_CONFIG`). -/
def DEFAULT_CONFIG : CompilerConfig :=
  { sourceDir := "ui"
    outputDir := "ui/__generated__"
    uiDefsPath := "ui/_ui_defs.json"
    globalVariablesPath := some "ui/_global_variables.json"
    prettyPrint := true
    sourcePattern := defaultSourcePattern
    clean := false
    uiDefsPrefix := "ui/__generated__/" }

/-- UI definition extracted from a source file's default export
(`UIDefinition`): the built namespace object plus output-placement
metadata. -/
structure UIDefinition where
  namespaceBody : List (String × JVal)
  filename : Option String
  subdir : Option String
  isVanillaOverride : Bool

/-- Successfully compiled artifact (`CompiledUIFile`); the JSON text is the
rendering of `namespaceBody` and carries no further information. -/
structure CompiledUIFile where
  sourcePath : String
  outputPath : String
  namespaceBody : List (String × JVal)

/-- Per-file compilation error (`CompilationError`). -/
structure CompilationError where
  file : String
  message : String
  stack : Option String
deriving DecidableEq

/-- Outcome of dynamically importing one source file and reading its
default export: the import threw, there was no default export, or it
yielded a list of definitions (a single definition is the one-element
list, mirroring `Array.isArray(exported) ? exported : [exported]`). -/
inductive LoadOutcome where
  | failure (message : String) (stack : Option String)
  | noExport
  | defs (ds : List UIDefinition)

/-- Discovered source file as fed to `compileFile`: its path, its directory
relative to the configured source root (the value Node's `path.relative`
computes for it), and its load outcome. -/
structure SourceFile where
  path : String
  relDir : String
  outcome : LoadOutcome

/-- Accumulated per-run state of the compile loop (`this.compiledFiles` and
`this.errors`). -/
structure CompileState where
  compiledFiles : List CompiledUIFile
  errors : List CompilationError

/-- Compiler instance state (`UICompiler`): configuration plus the global
variables registered through `addGlobalVariable`. -/
structure UICompiler where
  config : CompilerConfig
  globalVariables : List (String × JVal)

/-- Result of a run (`CompilationResult`), extended with the ordered list
of file paths the run writes (`writeOutputFiles` writes every artifact,
`generateUiDefs` writes the index; the elapsed-time field is dropped). -/
structure CompilationResult where
  files : List CompiledUIFile
  uiDefs : List String
  globalVariables : Option (List (String × JVal))
  errors : List CompilationError
  writtenPaths : List String

/-- Filesystem directory entry as reported by `readdirSync(dir,
{ withFileTypes: true })`: a file or a subdirectory, listed in the order
the filesystem enumerates them. -/
inductive FSEntry where
  | file (name : String)
  | dir (name : String) (entries : List FSEntry)

/-- Method `loadExistingUiDefs()`: a missing or unparsable index file
yields the empty list; otherwise entries containing the `__generated__`
marker are dropped (they will be regenerated) and all other entries are
preserved. -/
def UICompiler.loadExistingUiDefs (existing : Option (List String)) : List String :=
  match existing with
  | none => []
  | some entries => entries.filter (fun e => !(containsSub e "__generated__"))

/-- Method `findSourceFilesRecursive(dir, files)`: walks the directory's
entries in the order the filesystem enumerates them, recursing into
subdirectories and appending matching files to the accumulator. -/
def UICompiler.findSourceFilesRecursive (pat : String → Bool) (dirPath : String) :
    List FSEntry → List String → List String
  | [], files => files
  | FSEntry.file n :: rest, files =>
      UICompiler.findSourceFilesRecursive pat dirPath rest
        (if pat n then files ++ [joinPath dirPath n] else files)
  | FSEntry.dir n sub :: rest, files =>
      UICompiler.findSourceFilesRecursive pat dirPath rest
        (UICompiler.findSourceFilesRecursive pat (joinPath dirPath n) sub files)

/-- Matching files of a directory tree listed in depth-first,
enumeration-order traversal (reference function for characterizing
`findSourceFilesRecursive`). -/
def dfsMatchingFiles (pat : String → Bool) (dirPath : String) : List FSEntry → List String
  | [] => []
  | FSEntry.file n :: rest =>
      (if pat n then [joinPath dirPath n] else []) ++ dfsMatchingFiles pat dirPath rest
  | FSEntry.dir n sub :: rest =>
      dfsMatchingFiles pat (joinPath dirPath n) sub ++ dfsMatchingFiles pat dirPath rest

/-- Method `processDefinition(def, sourcePath)`: output filename from the
explicit override (JavaScript `||`, so an empty override also falls back)
or the source basename; subdirectory from the explicit override (JavaScript
`??`, so only a missing override falls back) or the source's directory
relative to the source root; output path under `config.outputDir`. -/
def UICompiler.processDefinition (config : CompilerConfig) (d : UIDefinition)
    (sourcePath : String) (sourceRelativeDir : String) : CompiledUIFile :=
  let sourceBasename := basenameStripTs sourcePath
  let filename :=
    match d.filename with
    | some f => if f = "" then sourceBasename else f
    | none => sourceBasename
  let subdir :=
    match d.subdir with
    | some sd => sd
    | none => sourceRelativeDir
  let outputPath :=
    if subdir = "" then joinPath config.outputDir (filename ++ ".json")
    else joinPath (joinPath config.outputDir subdir) (filename ++ ".json")
  { sourcePath := sourcePath
    outputPath := outputPath
    namespaceBody := d.namespaceBody }

/-- Method `compileFile(sourcePath)`: a throwing import contributes one
`CompilationError` and nothing else; a missing default export contributes
nothing; otherwise every definition of the export contributes one
artifact. -/
def UICompiler.compileFile (config : CompilerConfig) (st : CompileState) (f : SourceFile) :
    CompileState :=
  match f.outcome with
  | LoadOutcome.failure msg stk =>
      { st with errors := st.errors ++ [{ file := f.path, message := msg, stack := stk }] }
  | LoadOutcome.noExport => st
  | LoadOutcome.defs ds =>
      { st with
        compiledFiles :=
          st.compiledFiles ++
            ds.map (fun d => UICompiler.processDefinition config d f.path f.relDir) }

/-- Method `generateUiDefs()`: starts from the preserved entries, then for
each compiled file appends its forward-slash-normalized output path unless
that entry is already present. -/
def UICompiler.generateUiDefs (existingUiDefs : List String)
    (compiledFiles : List CompiledUIFile) : List String :=
  compiledFiles.foldl
    (fun acc f =>
      let entry := normalizeSlashes f.outputPath
      if entry ∈ acc then acc else acc ++ [entry])
    existingUiDefs

/-- Method `addGlobalVariable(name, value)`: stores the value under the
`$`-prefixed key. -/
def UICompiler.addGlobalVariable (c : UICompiler) (name : String) (value : JVal) :
    UICompiler :=
  let key :=
    match name.data with
    | '$' :: _ => name
    | _ => "$" ++ name
  { c with globalVariables := mapSet c.globalVariables key value }

/-- Method `writeGlobalVariables()`: the list of paths it writes — empty
when no variable is registered or the path is disabled (absent or, being
JavaScript-falsy, empty), otherwise exactly the configured path. -/
def UICompiler.writeGlobalVariables (c : UICompiler) : List String :=
  match c.config.globalVariablesPath with
  | none => []
  | some p => if c.globalVariables.length = 0 ∨ p = "" then [] else [p]

/-- Method `compile()`: resets the per-run state (including the global
variables), loads and filters the existing index, compiles every source
file in order, writes every artifact and then the index.  The inputs that
reach the model are the parsed existing index (or `none` when missing or
unparsable) and the discovered source files with their load outcomes;
directory creation and cleaning touch no files the claims are about. -/
def UICompiler.compile (c : UICompiler) (existing : Option (List String))
    (sources : List SourceFile) : CompilationResult :=
  let resetGlobalVariables : List (String × JVal) := []
  let existingUiDefs := UICompiler.loadExistingUiDefs existing
  let st := sources.foldl (UICompiler.compileFile c.config) { compiledFiles := [], errors := [] }
  let uiDefs := UICompiler.generateUiDefs existingUiDefs st.compiledFiles
  { files := st.compiledFiles
    uiDefs := uiDefs
    globalVariables :=
      if 0 < resetGlobalVariables.length then some resetGlobalVariables else none
    errors := st.errors
    writtenPaths := st.compiledFiles.map (fun f => f.outputPath) ++ [c.config.uiDefsPath] }

/-- Element `a` declaring an extension of the external reference `base`, so
that its full name differs from its bare name. -/
def c1ElementA : ElementBuilder := (ElementBuilder.create "a" none).extendsBase "base" true

/-- Registration of `c1ElementA` in the namespace `ns1`. -/
def c1Step1 : NamespaceBuilder × NamespaceElement :=
  c1ElementA.addToNamespace (NamespaceBuilder.create "ns1")

/-- Registration token of `c1ElementA`. -/
def c1TokenA : NamespaceElement := c1Step1.2

/-- Element `b` extending `c1ElementA` through its registration token. -/
def c1ElementB : ElementBuilder := (ElementBuilder.create "b" none).extendsFrom c1TokenA

/-- Namespace `ns1` after registering both elements. -/
def c1Registry : NamespaceBuilder := (c1ElementB.addToNamespace c1Step1.1).1

/-- Registry with one variable, one animation, one built element and one
raw element. -/
def c2Example : NamespaceBuilder :=
  ((((NamespaceBuilder.create "hud").addVariable "pad"
        (JVal.prim "10")).addAnimation
      { animationName := "anim__fade", animationProps := [] }).addInternal
    (ElementBuilder.create "main" (some "panel"))).addRaw "patch" (JVal.obj [])

/-- Foreign index entry (no `__generated__` marker). -/
def c3ForeignEntry : String := "ui/vendor_screen.json"

/-- Artifact used by the index-reconciliation witness. -/
def c3Artifact : CompiledUIFile :=
  { sourcePath := "ui/hud.ts"
    outputPath := "ui/__generated__/hud.json"
    namespaceBody := [("namespace", JVal.prim "hud")] }

/-- Definition yielded by each well-behaved source file in the
error-isolation scenario. -/
def c4GoodDefinition : UIDefinition :=
  { namespaceBody := [("namespace", JVal.prim "good")]
    filename := none
    subdir := none
    isVanillaOverride := false }

/-- Well-behaved source file `ui/a.ts`. -/
def c4FileA : SourceFile :=
  { path := "ui/a.ts", relDir := "", outcome := LoadOutcome.defs [c4GoodDefinition] }

/-- Source file whose import throws. -/
def c4FileBad : SourceFile :=
  { path := "ui/bad.ts", relDir := ""
    outcome := LoadOutcome.failure "boom" (some "stacktrace") }

/-- Well-behaved source file `ui/c.ts`. -/
def c4FileC : SourceFile :=
  { path := "ui/c.ts", relDir := "", outcome := LoadOutcome.defs [c4GoodDefinition] }

/-- Definition-per-file assignment for the error-isolation witness. -/
def c4DefOf : SourceFile → UIDefinition := fun _ => c4GoodDefinition

/-- Definition flagged as a vanilla override. -/
def c5VanillaDefinition : UIDefinition :=
  { namespaceBody := [("namespace", JVal.prim "hud")]
    filename := none
    subdir := none
    isVanillaOverride := true }

/-- Directory enumerating `b.ts` before `a.ts`. -/
def c6TreeFirst : List FSEntry := [FSEntry.file "b.ts", FSEntry.file "a.ts"]

/-- Same directory contents enumerated in the opposite order. -/
def c6TreeSecond : List FSEntry := [FSEntry.file "a.ts", FSEntry.file "b.ts"]

/-- Builder state right after a first `controls` call: the property bag
holds a reference to the freshly allocated array. -/
def c9AtBuild : BuilderState :=
  BuilderState.controlsCall { props := [], heap := [] } [JVal.prim "child_one"]

/-- Same builder after a second `controls` call made after `build()` was
taken: the shared array has been pushed into. -/
def c9AfterBuild : BuilderState := c9AtBuild.controlsCall [JVal.prim "child_two"]

/-- Builder state holding only a scalar property (used to witness the
unaffected cases). -/
def c9ScalarState : BuilderState :=
  { props := [("size", PropVal.scalar (JVal.prim "100"))], heap := [] }

/-- Empty registry for the duplicate-registration witness. -/
def c8Base : NamespaceBuilder := NamespaceBuilder.create "x"

/-- First element registered under the full name `dup`. -/
def c8First : ElementBuilder := ElementBuilder.create "dup" (some "panel")

/-- Second element registered under the same full name `dup`. -/
def c8Second : ElementBuilder := ElementBuilder.create "dup" (some "label")

/-- Registration token from another namespace, used by the extension-key
witness. -/
def c1WitnessToken : NamespaceElement :=
  { builder := ElementBuilder.create "base_panel" (some "panel")
    namespaceName := "other_ns" }

/-- Element extending `c1WitnessToken` in the extension-key witness. -/
def c1WitnessChild : ElementBuilder := ElementBuilder.create "child" none

/-- Registry whose raw elements clobber the reserved `namespace` key. -/
def c10RawClobbered : NamespaceBuilder :=
  (NamespaceBuilder.create "real_name").addRaw "namespace" (JVal.prim "clobbered")

/-- Registry whose animations clobber the reserved `namespace` key. -/
def c10AnimClobbered : NamespaceBuilder :=
  (NamespaceBuilder.create "real_name").addAnimation
    { animationName := "namespace", animationProps := [("anim_type", JVal.prim "alpha")] }

theorem setEntry_eq {α : Type} (k : String) (v : α) (k₀ : String) (v₀ : α) (h : k₀ = k) :
    setEntry k v (k₀, v₀) = (k, v) := by
  rw [setEntry]
  exact if_pos h

theorem setEntry_ne {α : Type} (k : String) (v : α) (k₀ : String) (v₀ : α) (h : ¬ k₀ = k) :
    setEntry k v (k₀, v₀) = (k₀, v₀) := by
  rw [setEntry]
  exact if_neg h

theorem setEntry_fst {α : Type} (k : String) (v : α) (p : String × α) :
    (setEntry k v p).1 = p.1 := by
  obtain ⟨k₀, v₀⟩ := p
  by_cases hp : k₀ = k
  · rw [setEntry_eq k v k₀ v₀ hp]
    exact hp.symm
  · rw [setEntry_ne k v k₀ v₀ hp]

theorem alookup_append {α : Type} (l₁ l₂ : List (String × α)) (k : String) :
    alookup (l₁ ++ l₂) k =
      match alookup l₁ k with
      | some v => some v
      | none => alookup l₂ k := by
  induction l₁ with
  | nil => simp [alookup]
  | cons p t ih =>
      obtain ⟨k₀, v₀⟩ := p
      by_cases h : k₀ = k
      · subst h
        simp [alookup]
      · simp [alookup, h, ih]

theorem alookup_eq_none {α : Type} (l : List (String × α)) (k : String) :
    alookup l k = none ↔ k ∉ l.map Prod.fst := by
  induction l with
  | nil => simp [alookup]
  | cons p t ih =>
      obtain ⟨k₀, v₀⟩ := p
      by_cases h : k₀ = k
      · subst h
        simp [alookup]
      · simp [alookup, h, ih, Ne.symm h]

theorem hasKey_eq_true {α : Type} (l : List (String × α)) (k : String) :
    hasKey l k = true ↔ k ∈ l.map Prod.fst := by
  rw [hasKey, Option.isSome_iff_ne_none]
  constructor
  · intro h
    by_contra hk
    exact h ((alookup_eq_none l k).mpr hk)
  · intro h hn
    exact ((alookup_eq_none l k).mp hn) h

theorem keys_mapSet {α : Type} (l : List (String × α)) (k : String) (v : α) :
    (mapSet l k v).map Prod.fst =
      if k ∈ l.map Prod.fst then l.map Prod.fst else l.map Prod.fst ++ [k] := by
  by_cases h : k ∈ l.map Prod.fst
  · rw [if_pos h, mapSet, if_pos ((hasKey_eq_true l k).mpr h), List.map_map]
    apply List.map_congr_left
    intro p _
    exact setEntry_fst k v p
  · rw [if_neg h, mapSet, if_neg (by simpa [hasKey_eq_true] using h)]
    simp

theorem alookup_map_setEntry_self {α : Type} (l : List (String × α)) (k : String) (v : α)
    (h : k ∈ l.map Prod.fst) :
    alookup (l.map (setEntry k v)) k = some v := by
  induction l with
  | nil => simp at h
  | cons p t ih =>
      obtain ⟨k₀, v₀⟩ := p
      by_cases hk : k₀ = k
      · rw [List.map_cons, setEntry_eq k v k₀ v₀ hk]
        simp [alookup]
      · have ht : k ∈ t.map Prod.fst := by
          rw [List.map_cons] at h
          rcases List.mem_cons.mp h with h1 | h1
          · exact absurd h1.symm hk
          · exact h1
        rw [List.map_cons, setEntry_ne k v k₀ v₀ hk]
        simp only [alookup, if_neg hk]
        exact ih ht

theorem alookup_map_setEntry_ne {α : Type} (l : List (String × α)) (j k : String) (v : α)
    (hjk : j ≠ k) :
    alookup (l.map (setEntry k v)) j = alookup l j := by
  induction l with
  | nil => simp
  | cons p t ih =>
      obtain ⟨k₀, v₀⟩ := p
      by_cases hk : k₀ = k
      · rw [List.map_cons, setEntry_eq k v k₀ v₀ hk]
        have h1 : ¬ k = j := Ne.symm hjk
        have h2 : ¬ k₀ = j := fun he => h1 (hk.symm.trans he)
        simp only [alookup, if_neg h1, if_neg h2]
        exact ih
      · rw [List.map_cons, setEntry_ne k v k₀ v₀ hk]
        by_cases hj : k₀ = j
        · simp only [alookup, if_pos hj]
        · simp only [alookup, if_neg hj]
          exact ih

theorem alookup_mapSet_self {α : Type} (l : List (String × α)) (k : String) (v : α) :
    alookup (mapSet l k v) k = some v := by
  by_cases h : hasKey l k
  · rw [mapSet, if_pos h]
    exact alookup_map_setEntry_self l k v ((hasKey_eq_true l k).mp h)
  · rw [mapSet, if_neg h, alookup_append]
    have hn : alookup l k = none := by
      rw [alookup_eq_none]
      intro hm
      exact h ((hasKey_eq_true l k).mpr hm)
    simp [hn, alookup]

theorem alookup_mapSet_ne {α : Type} (l : List (String × α)) (j k : String) (v : α)
    (hjk : j ≠ k) :
    alookup (mapSet l k v) j = alookup l j := by
  by_cases h : hasKey l k
  · rw [mapSet, if_pos h]
    exact alookup_map_setEntry_ne l j k v hjk
  · rw [mapSet, if_neg h, alookup_append]
    have h1 : alookup [(k, v)] j = none := by
      simp [alookup, Ne.symm hjk]
    rw [h1]
    cases alookup l j <;> simp

theorem alookupLast_cons {α : Type} (p : String × α) (t : List (String × α)) (j : String) :
    alookupLast (p :: t) j =
      match alookupLast t j with
      | some w => some w
      | none => if p.1 = j then some p.2 else none := by
  simp only [alookupLast, List.reverse_cons, alookup_append]
  cases ht : alookup t.reverse j <;> simp [ht, alookup]

theorem alookupLast_eq_none {α : Type} (l : List (String × α)) (k : String) :
    alookupLast l k = none ↔ k ∉ l.map Prod.fst := by
  rw [alookupLast, alookup_eq_none, List.map_reverse, List.mem_reverse]

theorem alookupLast_append {α : Type} (l₁ l₂ : List (String × α)) (k : String) :
    alookupLast (l₁ ++ l₂) k =
      match alookupLast l₂ k with
      | some v => some v
      | none => alookupLast l₁ k := by
  simp only [alookupLast, List.reverse_append, alookup_append]

theorem alookupLast_mapSet_self {α : Type} (l : List (String × α)) (k : String) (v : α) :
    alookupLast (mapSet l k v) k = some v := by
  by_cases h : hasKey l k
  · rw [mapSet, if_pos h, alookupLast, ← List.map_reverse]
    apply alookup_map_setEntry_self
    rw [List.map_reverse, List.mem_reverse]
    exact (hasKey_eq_true l k).mp h
  · rw [mapSet, if_neg h, alookupLast, List.reverse_append]
    simp [alookup]

theorem alookupLast_mapSet_ne {α : Type} (l : List (String × α)) (j k : String) (v : α)
    (hjk : j ≠ k) :
    alookupLast (mapSet l k v) j = alookupLast l j := by
  by_cases h : hasKey l k
  · rw [mapSet, if_pos h, alookupLast, ← List.map_reverse]
    rw [alookup_map_setEntry_ne _ j k v hjk]
    rfl
  · rw [mapSet, if_neg h, alookupLast, List.reverse_append]
    have h1 : ¬ k = j := Ne.symm hjk
    simp only [List.reverse_cons, List.reverse_nil, List.nil_append, List.singleton_append,
      alookup, if_neg h1]
    rfl

theorem applyEntries_nil (acc : List (String × JVal)) : applyEntries acc [] = acc := rfl

theorem applyEntries_cons (acc : List (String × JVal)) (w : String × JVal)
    (ws : List (String × JVal)) :
    applyEntries acc (w :: ws) = applyEntries (mapSet acc w.1 w.2) ws := rfl

theorem applyEntries_append (acc : List (String × JVal)) (ws₁ ws₂ : List (String × JVal)) :
    applyEntries acc (ws₁ ++ ws₂) = applyEntries (applyEntries acc ws₁) ws₂ := by
  simp [applyEntries, List.foldl_append]

theorem alookup_applyEntries (acc : List (String × JVal)) (ws : List (String × JVal))
    (j : String) :
    alookup (applyEntries acc ws) j =
      match alookupLast ws j with
      | some v => some v
      | none => alookup acc j := by
  induction ws generalizing acc with
  | nil => simp [applyEntries, alookupLast, alookup]
  | cons w ws ih =>
      obtain ⟨k₀, v₀⟩ := w
      rw [applyEntries_cons, ih, alookupLast_cons]
      cases ht : alookupLast ws j with
      | some v => rfl
      | none =>
          by_cases hj : k₀ = j
          · subst hj
            simp [alookup_mapSet_self]
          · have h1 : j ≠ k₀ := Ne.symm hj
            simp [alookup_mapSet_ne acc j k₀ v₀ h1, hj]

theorem keys_applyEntries (acc : List (String × JVal)) (ws : List (String × JVal)) :
    (applyEntries acc ws).map Prod.fst =
      acc.map Prod.fst ++ newKeys (acc.map Prod.fst) (ws.map Prod.fst) := by
  induction ws generalizing acc with
  | nil => simp [applyEntries, newKeys]
  | cons w ws ih =>
      obtain ⟨k₀, v₀⟩ := w
      rw [applyEntries_cons, ih]
      by_cases h : k₀ ∈ acc.map Prod.fst
      · rw [keys_mapSet, if_pos h]
        simp only [List.map_cons, newKeys, if_pos h]
      · rw [keys_mapSet, if_neg h]
        simp only [List.map_cons, newKeys, if_neg h]
        rw [List.append_assoc]
        rfl

theorem alookupLast_of_nodup {α : Type} (l : List (String × α)) (k : String) (v : α)
    (hnd : (l.map Prod.fst).Nodup) (h : alookup l k = some v) :
    alookupLast l k = some v := by
  induction l with
  | nil => simp [alookup] at h
  | cons p t ih =>
      obtain ⟨k₀, v₀⟩ := p
      rw [List.map_cons, List.nodup_cons] at hnd
      rw [alookupLast_cons]
      by_cases hk : k₀ = k
      · subst hk
        have hv : v₀ = v := by
          simpa [alookup] using h
        have htn : alookupLast t k₀ = none :=
          (alookupLast_eq_none t k₀).mpr hnd.1
        simp [htn, hv]
      · have ht : alookup t k = some v := by
          simpa [alookup, hk] using h
        rw [ih hnd.2 ht]

theorem alookup_valueMap {β γ : Type} (l : List (String × β)) (g : β → γ) (j : String) :
    alookup (l.map (fun p => (p.1, g p.2))) j = (alookup l j).map g := by
  induction l with
  | nil => simp [alookup]
  | cons p t ih =>
      obtain ⟨k₀, v₀⟩ := p
      by_cases h : k₀ = j
      · subst h
        simp [alookup]
      · simp [alookup, h, ih]

theorem alookupLast_valueMap {β γ : Type} (l : List (String × β)) (g : β → γ) (j : String) :
    alookupLast (l.map (fun p => (p.1, g p.2))) j = (alookupLast l j).map g := by
  rw [alookupLast, ← List.map_reverse, alookup_valueMap]
  rfl

theorem hasKey_valueMap {β γ : Type} (l : List (String × β)) (g : β → γ) (j : String) :
    hasKey (l.map (fun p => (p.1, g p.2))) j = hasKey l j := by
  rw [hasKey, hasKey, alookup_valueMap]
  cases alookup l j <;> rfl

theorem valueMap_mapSet {β γ : Type} (l : List (String × β)) (g : β → γ) (k : String)
    (v : β) :
    (mapSet l k v).map (fun p => (p.1, g p.2)) =
      mapSet (l.map (fun p => (p.1, g p.2))) k (g v) := by
  by_cases h : hasKey l k
  · rw [mapSet, if_pos h, mapSet, if_pos (by rw [hasKey_valueMap]; exact h)]
    rw [List.map_map, List.map_map]
    apply List.map_congr_left
    intro p _
    obtain ⟨k₀, v₀⟩ := p
    by_cases hp : k₀ = k
    · simp [Function.comp, setEntry_eq k v k₀ v₀ hp, setEntry_eq k (g v) k₀ (g v₀) hp]
    · simp [Function.comp, setEntry_ne k v k₀ v₀ hp, setEntry_ne k (g v) k₀ (g v₀) hp]
  · rw [mapSet, if_neg h, mapSet, if_neg (by rw [hasKey_valueMap]; exact h)]
    simp

theorem mapSet_length_pos {α : Type} (l : List (String × α)) (k : String) (v : α) :
    0 < (mapSet l k v).length := by
  by_cases h : hasKey l k
  · rw [mapSet, if_pos h]
    rcases l with _ | ⟨p, t⟩
    · simp [hasKey, alookup] at h
    · simp
  · rw [mapSet, if_neg h]
    simp

theorem builtEntries_keys (ns : NamespaceBuilder) :
    ns.builtEntries.map Prod.fst = ns.builders.map Prod.fst := by
  rw [NamespaceBuilder.builtEntries, List.map_map]
  apply List.map_congr_left
  intro p _
  rfl

theorem builtEntries_addInternal (ns : NamespaceBuilder) (b : ElementBuilder) :
    (ns.addInternal b).builtEntries =
      mapSet ns.builtEntries b.getFullName (JVal.obj b.build) :=
  valueMap_mapSet ns.builders (fun e => JVal.obj e.build) b.getFullName b

theorem alookupLast_append_congr {α : Type} (x₁ x₂ y : List (String × α)) (j : String)
    (h : alookupLast x₁ j = alookupLast x₂ j) :
    alookupLast (x₁ ++ y) j = alookupLast (x₂ ++ y) j := by
  rw [alookupLast_append x₁ y j, alookupLast_append x₂ y j, h]

theorem alookupLast_prepend_congr {α : Type} (z y₁ y₂ : List (String × α)) (j : String)
    (h : alookupLast y₁ j = alookupLast y₂ j) :
    alookupLast (z ++ y₁) j = alookupLast (z ++ y₂) j := by
  rw [alookupLast_append z y₁ j, alookupLast_append z y₂ j, h]

/-- C2: serializing a namespace registry lists the `namespace` field first,
then the variable keys, the animation keys, the built-element keys and the
raw-element keys, each section in insertion order and a repeated key kept at
its first occurrence; and every raw-element entry determines the serialized
value of its key (raw entries are assigned last and therefore shadow built
elements sharing the key, regardless of the order the two were added, which
the registry does not even record). -/
theorem c2_serialization_order_and_raw_shadowing (ns : NamespaceBuilder)
    (hraw : (ns.rawElements.map Prod.fst).Nodup) :
    ns.build.map Prod.fst =
        "namespace" ::
          newKeys ["namespace"]
            (ns.nsVariables.map Prod.fst ++ ns.animations.map Prod.fst ++
              ns.builders.map Prod.fst ++ ns.rawElements.map Prod.fst)
      ∧ ∀ k v, alookup ns.rawElements k = some v → alookup ns.build k = some v := by
  constructor
  · rw [NamespaceBuilder.build, keys_applyEntries]
    simp [builtEntries_keys]
  · intro k v hv
    rw [NamespaceBuilder.build, alookup_applyEntries]
    have h1 : alookupLast
        (ns.nsVariables ++ ns.animations ++ ns.builtEntries ++ ns.rawElements) k =
        some v := by
      rw [alookupLast_append]
      rw [alookupLast_of_nodup ns.rawElements k v hraw hv]
    rw [h1]

theorem c2_serialization_witness :
    (c2Example.rawElements.map Prod.fst).Nodup ∧
      c2Example.build.map Prod.fst =
        "namespace" ::
          newKeys ["namespace"]
            (c2Example.nsVariables.map Prod.fst ++ c2Example.animations.map Prod.fst ++
              c2Example.builders.map Prod.fst ++ c2Example.rawElements.map Prod.fst) :=
  ⟨by decide, (c2_serialization_order_and_raw_shadowing c2Example (by decide)).1⟩

/-- C8: registering a second element whose full name equals that of an
already-registered element (whose key no raw element shadows) leaves the
serialized key list unchanged — the key keeps the position of the first
registration — while the value under that key becomes the second element's
built form, and every other key's serialized value is unchanged. -/
theorem c8_duplicate_registration_last_write_wins (ns : NamespaceBuilder)
    (b1 b2 : ElementBuilder) (hname : b2.getFullName = b1.getFullName)
    (hraw : alookup ns.rawElements b1.getFullName = none) :
    ((ns.addInternal b1).addInternal b2).build.map Prod.fst =
        (ns.addInternal b1).build.map Prod.fst
      ∧ alookup ((ns.addInternal b1).addInternal b2).build b1.getFullName =
          some (JVal.obj b2.build)
      ∧ ∀ j, j ≠ b1.getFullName →
          alookup ((ns.addInternal b1).addInternal b2).build j =
            alookup (ns.addInternal b1).build j := by
  have hb1 : (ns.addInternal b1).builtEntries =
      mapSet ns.builtEntries b1.getFullName (JVal.obj b1.build) :=
    builtEntries_addInternal ns b1
  have hb2 : ((ns.addInternal b1).addInternal b2).builtEntries =
      mapSet (mapSet ns.builtEntries b1.getFullName (JVal.obj b1.build)) b1.getFullName
        (JVal.obj b2.build) := by
    rw [builtEntries_addInternal (ns.addInternal b1) b2, hb1, hname]
  have hsec1 : (ns.addInternal b1).rawElements = ns.rawElements := rfl
  have hsec2 : ((ns.addInternal b1).addInternal b2).rawElements = ns.rawElements := rfl
  refine ⟨?_, ?_, ?_⟩
  · rw [NamespaceBuilder.build, NamespaceBuilder.build, keys_applyEntries, keys_applyEntries]
    have hk : (((ns.addInternal b1).addInternal b2).builtEntries).map Prod.fst =
        ((ns.addInternal b1).builtEntries).map Prod.fst := by
      rw [hb2, hb1, keys_mapSet]
      have hmem : b1.getFullName ∈
          (mapSet ns.builtEntries b1.getFullName (JVal.obj b1.build)).map Prod.fst := by
        rw [← hasKey_eq_true, hasKey, alookup_mapSet_self]
        rfl
      rw [if_pos hmem]
    simp only [List.map_append, hk]
    rfl
  · rw [NamespaceBuilder.build, alookup_applyEntries]
    have hlast : alookupLast
        ((((ns.addInternal b1).addInternal b2).nsVariables ++
            ((ns.addInternal b1).addInternal b2).animations) ++
          ((ns.addInternal b1).addInternal b2).builtEntries ++
          ((ns.addInternal b1).addInternal b2).rawElements) b1.getFullName =
        some (JVal.obj b2.build) := by
      rw [alookupLast_append]
      have hrawlast :
          alookupLast (((ns.addInternal b1).addInternal b2).rawElements) b1.getFullName =
            none := by
        rw [hsec2, alookupLast_eq_none]
        exact (alookup_eq_none ns.rawElements b1.getFullName).mp hraw
      rw [hrawlast, alookupLast_append]
      rw [hb2, alookupLast_mapSet_self]
    rw [hlast]
  · intro j hj
    rw [NamespaceBuilder.build, NamespaceBuilder.build, alookup_applyEntries,
      alookup_applyEntries]
    have hmid : alookupLast (((ns.addInternal b1).addInternal b2).builtEntries) j =
        alookupLast ((ns.addInternal b1).builtEntries) j := by
      rw [hb2, hb1, alookupLast_mapSet_ne _ j b1.getFullName _ hj]
    have hall : alookupLast
        ((((ns.addInternal b1).addInternal b2).nsVariables ++
            ((ns.addInternal b1).addInternal b2).animations) ++
          ((ns.addInternal b1).addInternal b2).builtEntries ++
          ((ns.addInternal b1).addInternal b2).rawElements) j =
        alookupLast
          (((ns.addInternal b1).nsVariables ++ (ns.addInternal b1).animations) ++
            (ns.addInternal b1).builtEntries ++ (ns.addInternal b1).rawElements) j := by
      apply alookupLast_append_congr
      apply alookupLast_prepend_congr
      exact hmid
    rw [hall]
    rfl

theorem c8_duplicate_registration_witness :
    c8Second.getFullName = c8First.getFullName
      ∧ alookup c8Base.rawElements c8First.getFullName = none
      ∧ alookup ((c8Base.addInternal c8First).addInternal c8Second).build
          c8First.getFullName = some (JVal.obj c8Second.build) :=
  ⟨rfl, rfl,
    (c8_duplicate_registration_last_write_wins c8Base c8First c8Second rfl rfl).2.1⟩

theorem extendsBase_getFullName (b : ElementBuilder) (r : String) (c : Bool) :
    (b.extendsBase r c).getFullName = b.elementName ++ "@" ++ r := by
  cases c <;> rfl

/-- C1 counterexample: element `a` itself extends `base`, so its full name
is `a@base`; extending `b` from its registration token keys `b` as `b@a`
(the bare name), not as `b@` followed by `a`'s full name — the serialized
registry has no `b@a@base` entry. -/
theorem c1_extension_key_counterexample :
    c1TokenA.getFullName = "a@base"
      ∧ c1ElementB.getFullName = "b@a"
      ∧ alookup c1Registry.build ("b" ++ "@" ++ c1TokenA.getFullName) = none
      ∧ alookup c1Registry.build "b@a" = some (JVal.obj c1ElementB.build) :=
  ⟨rfl, rfl, rfl, rfl⟩

/-- C1 amended: `extendsFrom` keys the extending element as
`B.name@A.name` using A's bare registered name — which coincides with
`B.name@A.fullName()` exactly when A declares no extension of its own —
and `extendsExternallyFrom` keys it as `B.name@namespaceName.A.name`;
registering the extending element then serializing keys its entry by that
full name. -/
theorem c1_extension_keys (ns : NamespaceBuilder) (el : NamespaceElement)
    (b : ElementBuilder)
    (hraw : alookup ns.rawElements (b.elementName ++ "@" ++ el.getName) = none) :
    (b.extendsFrom el).getFullName = b.elementName ++ "@" ++ el.getName
      ∧ (el.builder.extendsRef = none →
          (b.extendsFrom el).getFullName = b.elementName ++ "@" ++ el.getFullName)
      ∧ (b.extendsExternallyFrom el).getFullName =
          b.elementName ++ "@" ++ (el.namespaceName ++ "." ++ el.getName)
      ∧ alookup ((ns.addInternal (b.extendsFrom el)).build)
          ((b.extendsFrom el).getFullName) =
          some (JVal.obj (b.extendsFrom el).build) := by
  have hfull : (b.extendsFrom el).getFullName = b.elementName ++ "@" ++ el.getName := by
    rw [ElementBuilder.extendsFrom, extendsBase_getFullName]
  refine ⟨hfull, ?_, ?_, ?_⟩
  · intro h
    rw [hfull, NamespaceElement.getFullName, ElementBuilder.getFullName, h]
    rfl
  · rw [ElementBuilder.extendsExternallyFrom, extendsBase_getFullName]
    rfl
  · rw [NamespaceBuilder.build, alookup_applyEntries]
    have hrawlast : alookupLast ((ns.addInternal (b.extendsFrom el)).rawElements)
        ((b.extendsFrom el).getFullName) = none := by
      rw [alookupLast_eq_none]
      apply (alookup_eq_none _ _).mp
      rw [hfull]
      exact hraw
    have h1 : alookupLast
        ((ns.addInternal (b.extendsFrom el)).nsVariables ++
            (ns.addInternal (b.extendsFrom el)).animations ++
          (ns.addInternal (b.extendsFrom el)).builtEntries ++
          (ns.addInternal (b.extendsFrom el)).rawElements)
        ((b.extendsFrom el).getFullName) =
        some (JVal.obj (b.extendsFrom el).build) := by
      rw [alookupLast_append, hrawlast, alookupLast_append]
      rw [builtEntries_addInternal, alookupLast_mapSet_self]
    rw [h1]

theorem c1_extension_keys_witness :
    alookup (NamespaceBuilder.create "nsA").rawElements
        (c1WitnessChild.elementName ++ "@" ++ c1WitnessToken.getName) = none
      ∧ (c1WitnessChild.extendsExternallyFrom c1WitnessToken).getFullName =
          c1WitnessChild.elementName ++ "@" ++
            (c1WitnessToken.namespaceName ++ "." ++ c1WitnessToken.getName) :=
  ⟨rfl,
    (c1_extension_keys (NamespaceBuilder.create "nsA") c1WitnessToken c1WitnessChild
        rfl).2.2.1⟩

theorem dollar_ne_namespace (s : String) : "$" ++ s ++ "|default" ≠ "namespace" := by
  intro h
  have h2 := congrArg String.data h
  rw [String.data_append, String.data_append] at h2
  have hd1 : ("$" : String).data = ['$'] := rfl
  have hd2 : ("|default" : String).data = ['|', 'd', 'e', 'f', 'a', 'u', 'l', 't'] := rfl
  have hd3 : ("namespace" : String).data =
      ['n', 'a', 'm', 'e', 's', 'p', 'a', 'c', 'e'] := rfl
  rw [hd1, hd2, hd3, List.singleton_append, List.cons_append] at h2
  injection h2 with h4 _
  exact absurd h4 (by decide)

/-- C10: an entry stored under the literal key `namespace` overwrites the
reserved namespace field at serialization time: a raw element (added by
`addRaw`, or by `modify`, which stores into the same map) with that key
determines the serialized `namespace` value; an animation with that key
does the same (witnessed concretely); variables can never collide because
`addVariable` always produces a `$…|default` key; consequently some
registries serialize with a `namespace` value different from the registry's
name. -/
theorem c10_reserved_namespace_key_overwritten (ns : NamespaceBuilder) (v : JVal)
    (hnd : (ns.rawElements.map Prod.fst).Nodup)
    (hv : alookup ns.rawElements "namespace" = some v) :
    alookup ns.build "namespace" = some v
      ∧ (∀ nm, NamespaceBuilder.variableKey nm ≠ "namespace")
      ∧ (∀ ns2 k val, NamespaceBuilder.modify ns2 k val = NamespaceBuilder.addRaw ns2 k val)
      ∧ alookup c10AnimClobbered.build "namespace" =
          some (JVal.obj [("anim_type", JVal.prim "alpha")])
      ∧ alookup c10RawClobbered.build "namespace" ≠
          some (JVal.prim c10RawClobbered.namespaceName) := by
  refine ⟨?_, ?_, ?_, rfl, ?_⟩
  · rw [NamespaceBuilder.build, alookup_applyEntries]
    have h1 : alookupLast
        (ns.nsVariables ++ ns.animations ++ ns.builtEntries ++ ns.rawElements)
        "namespace" = some v := by
      rw [alookupLast_append, alookupLast_of_nodup ns.rawElements "namespace" v hnd hv]
    rw [h1]
  · intro nm
    exact dollar_ne_namespace _
  · intro ns2 k val
    rfl
  · intro h
    rw [show alookup c10RawClobbered.build "namespace" = some (JVal.prim "clobbered")
        from rfl] at h
    have h2 : JVal.prim "clobbered" = JVal.prim c10RawClobbered.namespaceName :=
      Option.some.inj h
    have h3 : "clobbered" = c10RawClobbered.namespaceName := by
      injection h2
    exact absurd h3 (by decide)

theorem c10_reserved_namespace_key_witness :
    (c10RawClobbered.rawElements.map Prod.fst).Nodup
      ∧ alookup c10RawClobbered.build "namespace" = some (JVal.prim "clobbered") :=
  ⟨by decide,
    (c10_reserved_namespace_key_overwritten c10RawClobbered (JVal.prim "clobbered")
        (by decide) rfl).1⟩

/-- C9 counterexample: a `controls` list created before `build()` is shared
by reference with the returned snapshot, so a `controls` call made after
`build()` changes what the earlier snapshot serializes to. -/
theorem c9_snapshot_mutation_counterexample :
    observeAll c9AtBuild.heap c9AtBuild.props =
        [("controls", JVal.arr [JVal.prim "child_one"])]
      ∧ observeAll c9AfterBuild.heap c9AtBuild.props =
          [("controls", JVal.arr [JVal.prim "child_one", JVal.prim "child_two"])]
      ∧ observeAll c9AfterBuild.heap c9AtBuild.props ≠
          observeAll c9AtBuild.heap c9AtBuild.props := by
  refine ⟨rfl, rfl, ?_⟩
  intro h
  rw [show observeAll c9AfterBuild.heap c9AtBuild.props =
        [("controls", JVal.arr [JVal.prim "child_one", JVal.prim "child_two"])] from rfl,
    show observeAll c9AtBuild.heap c9AtBuild.props =
        [("controls", JVal.arr [JVal.prim "child_one"])] from rfl] at h
  simp at h

/-- C9 amended: `build()` is a shallow copy — top-level assignments made
after `build()` leave the snapshot's observable contents unchanged, and so
does a `controls` call when no `controls` list existed at build time (it
allocates a fresh array); only appending to a list that already existed at
build time (the counterexample) mutates the shared array under the
snapshot. -/
theorem c9_snapshot_shallow_copy (s : BuilderState) (k : String) (v : JVal)
    (cs : List JVal)
    (hwf : ∀ r, PropVal.listRef r ∈ s.props.map Prod.snd → r < s.heap.length)
    (hnone : alookup s.props "controls" = none) :
    observeAll (s.setProp k v).heap s.props = observeAll s.heap s.props
      ∧ observeAll (s.controlsCall cs).heap s.props = observeAll s.heap s.props := by
  have hc : s.controlsCall cs =
      { props := mapSet s.props "controls" (PropVal.listRef s.heap.length)
        heap := s.heap ++ [cs] } := by
    unfold BuilderState.controlsCall
    rw [hnone]
  constructor
  · rfl
  · rw [hc]
    apply List.map_congr_left
    intro p hp
    obtain ⟨k₀, pv⟩ := p
    cases pv with
    | scalar w => rfl
    | listRef r =>
        have hr : r < s.heap.length := hwf r (List.mem_map_of_mem Prod.snd hp)
        simp only [derefProp]
        rw [List.getD_eq_getElem?_getD, List.getD_eq_getElem?_getD,
          List.getElem?_append, if_pos hr]

theorem c9_snapshot_shallow_copy_witness :
    (∀ r, PropVal.listRef r ∈ c9ScalarState.props.map Prod.snd →
        r < c9ScalarState.heap.length)
      ∧ alookup c9ScalarState.props "controls" = none
      ∧ observeAll (c9ScalarState.controlsCall [JVal.prim "late_child"]).heap
          c9ScalarState.props = observeAll c9ScalarState.heap c9ScalarState.props :=
  ⟨by intro r hr; simp [c9ScalarState] at hr, rfl,
    (c9_snapshot_shallow_copy c9ScalarState "alpha" (JVal.prim "1")
        [JVal.prim "late_child"] (by intro r hr; simp [c9ScalarState] at hr) rfl).2⟩

/-- C6 counterexample: two directory listings with the same files but
opposite enumeration order are traversed into different discovery lists —
no sort is applied, so the order is not independent of the filesystem's
enumeration order (and the first result is not sorted by path). -/
theorem c6_discovery_order_counterexample :
    UICompiler.findSourceFilesRecursive defaultSourcePattern "ui" c6TreeFirst [] =
        ["ui/b.ts", "ui/a.ts"]
      ∧ UICompiler.findSourceFilesRecursive defaultSourcePattern "ui" c6TreeSecond [] =
          ["ui/a.ts", "ui/b.ts"]
      ∧ List.Perm c6TreeFirst c6TreeSecond
      ∧ UICompiler.findSourceFilesRecursive defaultSourcePattern "ui" c6TreeFirst [] ≠
          UICompiler.findSourceFilesRecursive defaultSourcePattern "ui" c6TreeSecond [] := by
  have h1 : UICompiler.findSourceFilesRecursive defaultSourcePattern "ui" c6TreeFirst [] =
      ["ui/b.ts", "ui/a.ts"] := by
    simp [c6TreeFirst, UICompiler.findSourceFilesRecursive, defaultSourcePattern, joinPath,
      startsWithUnderscore, endsWithTsList]
  have h2 : UICompiler.findSourceFilesRecursive defaultSourcePattern "ui" c6TreeSecond [] =
      ["ui/a.ts", "ui/b.ts"] := by
    simp [c6TreeSecond, UICompiler.findSourceFilesRecursive, defaultSourcePattern, joinPath,
      startsWithUnderscore, endsWithTsList]
  refine ⟨h1, h2, List.Perm.swap (FSEntry.file "a.ts") (FSEntry.file "b.ts") [], ?_⟩
  rw [h1, h2]
  decide

/-- C6 amended: source discovery is a pure function of the enumerated
directory tree — it returns exactly the pattern-matching files in
depth-first traversal order, following the filesystem's enumeration order
of each directory and appending to the accumulator; it applies no sort. -/
theorem c6_discovery_follows_enumeration (pat : String → Bool) (dirPath : String)
    (es : List FSEntry) (acc : List String) :
    UICompiler.findSourceFilesRecursive pat dirPath es acc =
      acc ++ dfsMatchingFiles pat dirPath es := by
  induction dirPath, es, acc using UICompiler.findSourceFilesRecursive.induct pat with
  | case1 d files => simp [UICompiler.findSourceFilesRecursive, dfsMatchingFiles]
  | case2 d n rest files ih =>
      by_cases h : pat n = true
      · rw [dif_pos h] at ih
        simp [UICompiler.findSourceFilesRecursive, dfsMatchingFiles, h, ih]
      · rw [dif_neg h] at ih
        simp [UICompiler.findSourceFilesRecursive, dfsMatchingFiles, h, ih]
  | case3 d n sub rest files ih1 ih2 =>
      rw [ih1] at ih2
      simp only [UICompiler.findSourceFilesRecursive, dfsMatchingFiles]
      rw [ih1, ih2, List.append_assoc]

theorem generateUiDefs_cons (acc : List String) (f : CompiledUIFile)
    (fs : List CompiledUIFile) :
    UICompiler.generateUiDefs acc (f :: fs) =
      UICompiler.generateUiDefs
        (if normalizeSlashes f.outputPath ∈ acc then acc
          else acc ++ [normalizeSlashes f.outputPath]) fs := rfl

theorem generateUiDefs_spec (files : List CompiledUIFile) (acc : List String) :
    ∃ tail, UICompiler.generateUiDefs acc files = acc ++ tail
      ∧ tail.Sublist (files.map (fun f => normalizeSlashes f.outputPath))
      ∧ (acc.Nodup → (acc ++ tail).Nodup) := by
  induction files generalizing acc with
  | nil => exact ⟨[], by simp [UICompiler.generateUiDefs], by simp, by simp⟩
  | cons f fs ih =>
      rw [generateUiDefs_cons]
      by_cases h : normalizeSlashes f.outputPath ∈ acc
      · rw [if_pos h]
        obtain ⟨t, ht, hs, hnd⟩ := ih acc
        exact ⟨t, ht, hs.cons _, hnd⟩
      · rw [if_neg h]
        obtain ⟨t, ht, hs, hnd⟩ := ih (acc ++ [normalizeSlashes f.outputPath])
        refine ⟨normalizeSlashes f.outputPath :: t, ?_, ?_, ?_⟩
        · rw [ht, List.append_assoc]
          rfl
        · exact hs.cons₂ _
        · intro hacc
          have hap : (acc ++ [normalizeSlashes f.outputPath]).Nodup := by
            simp [List.nodup_append, hacc, h]
          have h2 := hnd hap
          rw [List.append_assoc, List.singleton_append] at h2
          exact h2

/-- C3 counterexample: an existing index that already lists the same
foreign entry twice is preserved with the duplicate intact, so the merged
index of a run is not duplicate-free for every existing index. -/
theorem c3_index_duplicate_counterexample :
    containsSub c3ForeignEntry "__generated__" = false
      ∧ UICompiler.generateUiDefs
          (UICompiler.loadExistingUiDefs (some [c3ForeignEntry, c3ForeignEntry])) [] =
          [c3ForeignEntry, c3ForeignEntry]
      ∧ ¬ (UICompiler.generateUiDefs
            (UICompiler.loadExistingUiDefs (some [c3ForeignEntry, c3ForeignEntry]))
            []).Nodup := by
  refine ⟨by decide, by decide, by decide⟩

/-- C3 amended: reconciliation preserves every foreign entry verbatim and
in front — the merged index is the preserved foreign list followed by a
subsequence of the normalized output paths in compilation order, each
appended only when not already present — and, provided the preserved
foreign list itself has no duplicates, the merged index has none, and
re-running on the merged index again yields no duplicates. -/
theorem c3_index_reconciliation (existing : Option (List String))
    (files : List CompiledUIFile)
    (hnd : (UICompiler.loadExistingUiDefs existing).Nodup) :
    (∃ tail,
        UICompiler.generateUiDefs (UICompiler.loadExistingUiDefs existing) files =
            UICompiler.loadExistingUiDefs existing ++ tail
          ∧ tail.Sublist (files.map (fun f => normalizeSlashes f.outputPath)))
      ∧ (∀ e ∈ UICompiler.loadExistingUiDefs existing,
          e ∈ UICompiler.generateUiDefs (UICompiler.loadExistingUiDefs existing) files)
      ∧ (UICompiler.generateUiDefs (UICompiler.loadExistingUiDefs existing) files).Nodup
      ∧ (UICompiler.generateUiDefs
          (UICompiler.loadExistingUiDefs
            (some (UICompiler.generateUiDefs (UICompiler.loadExistingUiDefs existing)
              files)))
          files).Nodup := by
  obtain ⟨t, ht, hs, hndp⟩ :=
    generateUiDefs_spec files (UICompiler.loadExistingUiDefs existing)
  have hmerged : (UICompiler.generateUiDefs (UICompiler.loadExistingUiDefs existing)
      files).Nodup := by
    rw [ht]
    exact hndp hnd
  refine ⟨⟨t, ht, hs⟩, ?_, hmerged, ?_⟩
  · intro e he
    rw [ht]
    exact List.mem_append_left _ he
  · have hnd2 : (UICompiler.loadExistingUiDefs
        (some (UICompiler.generateUiDefs (UICompiler.loadExistingUiDefs existing)
          files))).Nodup :=
      List.Nodup.filter _ hmerged
    obtain ⟨t2, ht2, hs2, hndp2⟩ :=
      generateUiDefs_spec files
        (UICompiler.loadExistingUiDefs
          (some (UICompiler.generateUiDefs (UICompiler.loadExistingUiDefs existing) files)))
    rw [ht2]
    exact hndp2 hnd2

theorem c3_index_reconciliation_witness :
    (UICompiler.loadExistingUiDefs (some [c3ForeignEntry])).Nodup
      ∧ (UICompiler.generateUiDefs (UICompiler.loadExistingUiDefs (some [c3ForeignEntry]))
          [c3Artifact]).Nodup :=
  ⟨by decide,
    (c3_index_reconciliation (some [c3ForeignEntry]) [c3Artifact] (by decide)).2.2.1⟩

theorem compileFold_defs (config : CompilerConfig) (files : List SourceFile)
    (dOf : SourceFile → UIDefinition)
    (h : ∀ s ∈ files, s.outcome = LoadOutcome.defs [dOf s]) (st : CompileState) :
    files.foldl (UICompiler.compileFile config) st =
      { compiledFiles := st.compiledFiles ++
          files.map (fun s => UICompiler.processDefinition config (dOf s) s.path s.relDir)
        errors := st.errors } := by
  induction files generalizing st with
  | nil =>
      cases st with
      | mk c e => simp
  | cons f fs ih =>
      have hf : f.outcome = LoadOutcome.defs [dOf f] := h f (List.mem_cons_self f fs)
      have hfs : ∀ s ∈ fs, s.outcome = LoadOutcome.defs [dOf s] := fun s hs =>
        h s (List.mem_cons_of_mem f hs)
      rw [List.foldl_cons]
      have hstep : UICompiler.compileFile config st f =
          { compiledFiles := st.compiledFiles ++
              [UICompiler.processDefinition config (dOf f) f.path f.relDir]
            errors := st.errors } := by
        unfold UICompiler.compileFile
        rw [hf]
        simp
      rw [hstep, ih hfs]
      simp

/-- C4: in a run whose discovered files are `pre ++ [f] ++ post`, where the
single file `f` throws during loading and every other file yields exactly
one definition, the error list holds exactly one entry carrying `f`'s path,
message and stack, and the artifacts are exactly (and as many as) those of
the other files — one bad file never aborts the batch. -/
theorem c4_single_failure_isolated (c : UICompiler) (existing : Option (List String))
    (pre post : List SourceFile) (f : SourceFile) (msg : String) (stk : Option String)
    (dOf : SourceFile → UIDefinition)
    (hok : ∀ s ∈ pre ++ post, s.outcome = LoadOutcome.defs [dOf s])
    (hf : f.outcome = LoadOutcome.failure msg stk) :
    (c.compile existing (pre ++ [f] ++ post)).errors =
        [{ file := f.path, message := msg, stack := stk }]
      ∧ (c.compile existing (pre ++ [f] ++ post)).files =
          (pre ++ post).map
            (fun s => UICompiler.processDefinition c.config (dOf s) s.path s.relDir)
      ∧ (c.compile existing (pre ++ [f] ++ post)).files.length =
          pre.length + post.length := by
  have hpre : ∀ s ∈ pre, s.outcome = LoadOutcome.defs [dOf s] := fun s hs =>
    hok s (List.mem_append_left post hs)
  have hpost : ∀ s ∈ post, s.outcome = LoadOutcome.defs [dOf s] := fun s hs =>
    hok s (List.mem_append_right pre hs)
  have hst : (pre ++ [f] ++ post).foldl (UICompiler.compileFile c.config)
      { compiledFiles := [], errors := [] } =
      { compiledFiles := (pre ++ post).map
          (fun s => UICompiler.processDefinition c.config (dOf s) s.path s.relDir)
        errors := [{ file := f.path, message := msg, stack := stk }] } := by
    rw [List.foldl_append, List.foldl_append]
    rw [compileFold_defs c.config pre dOf hpre]
    have hmid : UICompiler.compileFile c.config
        { compiledFiles := [] ++ pre.map
            (fun s => UICompiler.processDefinition c.config (dOf s) s.path s.relDir)
          errors := [] } f =
        { compiledFiles := pre.map
            (fun s => UICompiler.processDefinition c.config (dOf s) s.path s.relDir)
          errors := [{ file := f.path, message := msg, stack := stk }] } := by
      unfold UICompiler.compileFile
      rw [hf]
      simp
    have hone : ∀ x : CompileState,
        [f].foldl (UICompiler.compileFile c.config) x = UICompiler.compileFile c.config x f :=
      fun x => rfl
    rw [hone, hmid, compileFold_defs c.config post dOf hpost]
    simp
  refine ⟨?_, ?_, ?_⟩
  · exact congrArg CompileState.errors hst
  · exact congrArg CompileState.compiledFiles hst
  · have h3 := congrArg (fun s : CompileState => s.compiledFiles.length) hst
    simp only [List.length_map, List.length_append] at h3
    exact h3

theorem c4_single_failure_isolated_witness :
    (∀ s ∈ [c4FileA] ++ [c4FileC], s.outcome = LoadOutcome.defs [c4DefOf s])
      ∧ c4FileBad.outcome = LoadOutcome.failure "boom" (some "stacktrace")
      ∧ (UICompiler.compile { config := DEFAULT_CONFIG, globalVariables := [] } none
          ([c4FileA] ++ [c4FileBad] ++ [c4FileC])).errors =
          [{ file := c4FileBad.path, message := "boom", stack := some "stacktrace" }]
      ∧ (UICompiler.compile { config := DEFAULT_CONFIG, globalVariables := [] } none
          ([c4FileA] ++ [c4FileBad] ++ [c4FileC])).files.length = 1 + 1 := by
  have hok : ∀ s ∈ [c4FileA] ++ [c4FileC], s.outcome = LoadOutcome.defs [c4DefOf s] := by
    intro s hs
    rcases List.mem_append.mp hs with h | h
    · rw [List.mem_singleton] at h
      subst h
      rfl
    · rw [List.mem_singleton] at h
      subst h
      rfl
  refine ⟨hok, rfl, ?_, ?_⟩
  · exact (c4_single_failure_isolated { config := DEFAULT_CONFIG, globalVariables := [] }
      none [c4FileA] [c4FileC] c4FileBad "boom" (some "stacktrace") c4DefOf hok rfl).1
  · exact (c4_single_failure_isolated { config := DEFAULT_CONFIG, globalVariables := [] }
      none [c4FileA] [c4FileC] c4FileBad "boom" (some "stacktrace") c4DefOf hok rfl).2.2

/-- C5: `processDefinition` never reads `isVanillaOverride` — flipping the
flag changes nothing — so a vanilla-override definition is still routed
into the managed `__generated__` output subtree under the default
configuration, and `generateUiDefs` still records its output path among the
regenerated index entries. -/
theorem c5_vanilla_override_flag_ignored :
    (∀ (config : CompilerConfig) (d : UIDefinition) (sp rd : String) (b₁ b₂ : Bool),
        UICompiler.processDefinition config { d with isVanillaOverride := b₁ } sp rd =
          UICompiler.processDefinition config { d with isVanillaOverride := b₂ } sp rd)
      ∧ (UICompiler.processDefinition DEFAULT_CONFIG c5VanillaDefinition "ui/hud.ts"
          "").outputPath = "ui/__generated__/hud.json"
      ∧ containsSub
          (UICompiler.processDefinition DEFAULT_CONFIG c5VanillaDefinition "ui/hud.ts"
            "").outputPath "__generated__" = true
      ∧ UICompiler.generateUiDefs []
          [UICompiler.processDefinition DEFAULT_CONFIG c5VanillaDefinition "ui/hud.ts" ""] =
          ["ui/__generated__/hud.json"] := by
  refine ⟨?_, by decide, by decide, by decide⟩
  intro config d sp rd b₁ b₂
  rfl

/-- C7: `compile()` resets the registered global variables and never calls
`writeGlobalVariables`: even after registering a variable with the
enabled path configured, the run's write set is exactly the artifact files
followed by the index file, and the result reports no global variables —
although `writeGlobalVariables` itself would have written the configured
path. -/
theorem c7_global_variables_file_not_written (c : UICompiler) (n : String) (v : JVal)
    (p : String) (existing : Option (List String)) (sources : List SourceFile)
    (hp : c.config.globalVariablesPath = some p) (hpe : p ≠ "") :
    ((c.addGlobalVariable n v).compile existing sources).globalVariables = none
      ∧ ((c.addGlobalVariable n v).compile existing sources).writtenPaths =
          ((c.addGlobalVariable n v).compile existing sources).files.map
            (fun f => f.outputPath) ++ [c.config.uiDefsPath]
      ∧ (c.addGlobalVariable n v).writeGlobalVariables = [p] := by
  refine ⟨rfl, rfl, ?_⟩
  have hp2 : (c.addGlobalVariable n v).config.globalVariablesPath = some p := hp
  have hlen : 0 < (c.addGlobalVariable n v).globalVariables.length :=
    mapSet_length_pos c.globalVariables
      (match n.data with
        | '$' :: _ => n
        | _ => "$" ++ n) v
  unfold UICompiler.writeGlobalVariables
  rw [hp2]
  show (if (c.addGlobalVariable n v).globalVariables.length = 0 ∨ p = "" then []
    else [p]) = [p]
  rw [if_neg ?hcond]
  case hcond =>
    intro hor
    rcases hor with h0 | h0
    · rw [h0] at hlen
      exact absurd hlen (by decide)
    · exact hpe h0

theorem c7_global_variables_witness :
    DEFAULT_CONFIG.globalVariablesPath = some "ui/_global_variables.json"
      ∧ "ui/_global_variables.json" ≠ ""
      ∧ ((({ config := DEFAULT_CONFIG, globalVariables := [] } : UICompiler).addGlobalVariable
          "accent" (JVal.prim "blue")).compile none []).globalVariables = none
      ∧ (({ config := DEFAULT_CONFIG, globalVariables := [] } : UICompiler).addGlobalVariable
          "accent" (JVal.prim "blue")).writeGlobalVariables =
          ["ui/_global_variables.json"] :=
  ⟨rfl, by decide,
    (c7_global_variables_file_not_written
        { config := DEFAULT_CONFIG, globalVariables := [] } "accent" (JVal.prim "blue")
        "ui/_global_variables.json" none [] rfl (by decide)).1,
    (c7_global_variables_file_not_written
        { config := DEFAULT_CONFIG, globalVariables := [] } "accent" (JVal.prim "blue")
        "ui/_global_variables.json" none [] rfl (by decide)).2.2⟩
